import Mathlib

/-!
Shallow embedding of the sonemas/service core: validated primitives
(Email, Uuid, Password), the pluggable password-hashing capability, and
the staged User builder, together with theorems checking the spec's
claims against these definitions.

Machine strings are modelled as Lean String / List Char.  The two
regular expressions in the source (email, password strength) are
translated into executable matchers over List Char; the Unicode classes
\d and \w of the Rust regex crate are modelled by their ASCII fragments.
-/

/-- Decidable equality for Except, used to evaluate results on concrete
inputs. -/
instance {ε α : Type} [DecidableEq ε] [DecidableEq α] : DecidableEq (Except ε α) :=
  fun a b =>
    match a, b with
    | Except.ok x, Except.ok y =>
      if h : x = y then Decidable.isTrue (congrArg Except.ok h)
      else Decidable.isFalse (fun hc => h (Except.ok.inj hc))
    | Except.error x, Except.error y =>
      if h : x = y then Decidable.isTrue (congrArg Except.error h)
      else Decidable.isFalse (fun hc => h (Except.error.inj hc))
    | Except.ok _, Except.error _ => Decidable.isFalse (fun hc => Except.noConfusion hc)
    | Except.error _, Except.ok _ => Decidable.isFalse (fun hc => Except.noConfusion hc)

/-! ### Character classes used by the two regexes -/

def isAsciiLower (c : Char) : Bool := 'a' ≤ c && c ≤ 'z'

def isAsciiUpper (c : Char) : Bool := 'A' ≤ c && c ≤ 'Z'

def isAsciiDigit (c : Char) : Bool := '0' ≤ c && c ≤ '9'

/-! ### Error taxonomy (src/svc_std/src/primitives/error.rs) -/

inductive ValidationError
  | Id
  | Email
  | Password
  deriving DecidableEq, Repr

namespace password_hasher

/-- Error type of the password-hasher capability
(src/svc_std/src/traits/password_hasher.rs). -/
inductive Error
  | HashingError (msg : String)
  | InvalidPassword
  deriving DecidableEq, Repr

end password_hasher

/-- Primitives' error enum (src/svc_std/src/primitives/error.rs). -/
inductive Error
  | Validation (v : ValidationError)
  | InvalidPassword
  | PasswordHashingError (e : password_hasher.Error)
  | RegexError (s : String)
  deriving DecidableEq, Repr

/-- Translation of the From impl for password_hasher errors:
InvalidPassword maps to InvalidPassword, anything else to
PasswordHashingError. -/
def Error.from_password_hasher : password_hasher.Error → Error
  | password_hasher.Error.InvalidPassword => Error.InvalidPassword
  | e => Error.PasswordHashingError e

/-! ### Email regex (src/svc_std/src/primitives/email.rs)

The source regex is anchored at the start only:
the local part is one char of [a-z0-9_+], optionally followed by
a run of [a-z0-9_+.] ending in [a-z0-9_+]; then the at sign; then a
domain of dot/dash separated lowercase alphanumeric labels ending in a
dot and 2 to 6 lowercase letters.  is_match succeeds when some prefix
of the input matches.  Because the at sign is not a local-part
character, the local segment is exactly the maximal leading run of
local characters. -/

def isLocalChar (c : Char) : Bool :=
  isAsciiLower c || isAsciiDigit c || c == '_' || c == '+'

def isLocalMid (c : Char) : Bool := isLocalChar c || c == '.'

/-- Matches the optional part of the local grammar: empty, or a run of
middle characters ending in a plain local character. -/
def localTail : List Char → Bool
  | [] => true
  | [c] => isLocalChar c
  | c :: c2 :: cs => isLocalMid c && localTail (c2 :: cs)

def localOk : List Char → Bool
  | [] => false
  | c :: cs => isLocalChar c && localTail cs

def isAlnumLower (c : Char) : Bool := isAsciiLower c || isAsciiDigit c

def isDomSep (c : Char) : Bool := c == '-' || c == '.'

/-- Exact match for the domain body: one or more lowercase alphanumeric
characters, then any number of separator-plus-label blocks.  The flag
records whether the previous character was alphanumeric (so the body
may stop or a separator may follow). -/
def bodyAux : List Char → Bool → Bool
  | [], canEnd => canEnd
  | c :: cs, canEnd =>
    if isAlnumLower c then bodyAux cs true
    else if isDomSep c then canEnd && bodyAux cs false
    else false

def bodyOk (l : List Char) : Bool := bodyAux l false

/-- After the final dot of the domain the regex needs 2 to 6 lowercase
letters; since the pattern is not end-anchored, matching succeeds as
soon as two lowercase letters follow. -/
def tldStart : List Char → Bool
  | a :: b :: _ => isAsciiLower a && isAsciiLower b
  | _ => false

/-- The domain part of the pattern matches some prefix of d. -/
def domainPrefixOk (d : List Char) : Bool :=
  (List.range d.length).any fun j =>
    bodyOk (d.take j) && (d.getD j ' ' == '.') && tldStart (d.drop (j + 1))

/-- is_match of the start-anchored, end-unanchored email regex. -/
def emailAccepts (s : List Char) : Bool :=
  let l := s.takeWhile isLocalMid
  let rest := s.dropWhile isLocalMid
  localOk l &&
    match rest with
    | '@' :: d => domainPrefixOk d
    | _ => false

/-- A validatable email field (src/svc_std/src/primitives/email.rs). -/
structure Email where
  raw : String
  deriving DecidableEq, Repr

def Email.validate (e : Email) : Except Error Unit :=
  if emailAccepts e.raw.data then Except.ok ()
  else Except.error (Error.Validation ValidationError.Email)

def Email.new (value : String) : Except Error Email :=
  let v : Email := ⟨value⟩
  match v.validate with
  | Except.error e => Except.error e
  | Except.ok _ => Except.ok v

/-- Display renders the stored string verbatim. -/
def Email.display (e : Email) : String := e.raw

/-- Exact match of the domain part of the email pattern against the
whole list: body, dot, and a tld of 2 to 6 lowercase letters consuming
everything. -/
def domainFullOk (d : List Char) : Bool :=
  (List.range d.length).any fun j =>
    bodyOk (d.take j) && (d.getD j ' ' == '.') &&
    (d.drop (j + 1)).all isAsciiLower &&
    decide (2 ≤ (d.drop (j + 1)).length) && decide ((d.drop (j + 1)).length ≤ 6)

/-- Exact match of the full email pattern against the whole list; a
string in this language followed by arbitrary trailing characters is
what the start-anchored regex accepts. -/
def emailExactMatch (s : List Char) : Bool :=
  (List.range (s.length + 1)).any fun i =>
    localOk (s.take i) &&
    match s.drop i with
    | '@' :: d => domainFullOk d
    | _ => false

/-! ### Password regex (src/svc_std/src/primitives/password.rs)

The source pattern is a conjunction of lookaheads followed by the body
and both anchors.  Its pieces, in order:
lookahead for a digit, for a lowercase letter, for an uppercase letter,
and for a symbol of the fixed class; a lookahead matching one word
character, optionally the same character again, then requiring that the
same character does not occur at the following two positions; a
negative lookahead for the three blocked words; and a body of 8 to 20
arbitrary non-newline characters spanning the whole string.

With backtracking, the fifth lookahead succeeds exactly when the first
character is a word character and the first four characters are not all
identical; it is the only trace of the repeated-character rule. -/

def isPwdSymbol (c : Char) : Bool :=
  c == '#' || c == '$' || c == '%' || c == '/' || c == '(' || c == ')' ||
  c == '=' || c == 'Â' || c == '¿' || c == '?' || c == '*' || c == '+' ||
  c == '-'

def isWordChar (c : Char) : Bool :=
  isAsciiLower c || isAsciiUpper c || isAsciiDigit c || c == '_'

/-- Semantics of the backreference lookahead at position zero: the
first character is a word character, and when at least four characters
exist, the first four are not all equal. -/
def startRunOk : List Char → Bool
  | c0 :: c1 :: c2 :: c3 :: _ =>
    isWordChar c0 && !(c1 == c0 && c2 == c0 && c3 == c0)
  | c0 :: _ => isWordChar c0
  | [] => false

def leadMatch : List Char → List Char → Bool
  | [], _ => true
  | _ :: _, [] => false
  | p :: ps, c :: cs => p == c && leadMatch ps cs

def hasSub (pat : List Char) : List Char → Bool
  | [] => leadMatch pat []
  | c :: cs => leadMatch pat (c :: cs) || hasSub pat cs

def blockedWords : List (List Char) :=
  ["palabra1".data, "palabra2".data, "palabraN".data]

def hasBlockedWord (l : List Char) : Bool :=
  blockedWords.any fun w => hasSub w l

/-- is_match of the password regex (both anchors present, so the body
covers the entire string and no character may be a newline). -/
def passwordRegexAccepts (l : List Char) : Bool :=
  l.any isAsciiDigit && l.any isAsciiLower && l.any isAsciiUpper &&
  l.any isPwdSymbol && startRunOk l && !hasBlockedWord l &&
  decide (8 ≤ l.length) && decide (l.length ≤ 20) &&
  l.all fun c => !(c == '\n')

/-! ### Password primitive (src/svc_std/src/primitives/password.rs) -/

/-- The pluggable hashing capability
(src/svc_std/src/traits/password_hasher.rs), modelled as a record of
its two static operations. -/
structure PasswordHasher where
  hash : String → Except password_hasher.Error String
  confirm_password : String → String → Except password_hasher.Error Unit

/-- A password field; only the hash string is stored. -/
structure Password where
  hashStr : String
  deriving DecidableEq, Repr

def Password.validate_value (value : String) : Except Error Unit :=
  if passwordRegexAccepts value.data then Except.ok ()
  else Except.error (Error.Validation ValidationError.Password)

def Password.new (H : PasswordHasher) (value : String) : Except Error Password :=
  match Password.validate_value value with
  | Except.error e => Except.error e
  | Except.ok _ =>
    match H.hash value with
    | Except.error e => Except.error (Error.from_password_hasher e)
    | Except.ok h => Except.ok ⟨h⟩

def Password.confirm (H : PasswordHasher) (p : Password) (candidate : String) :
    Except Error Unit :=
  match H.confirm_password candidate p.hashStr with
  | Except.error e => Except.error (Error.from_password_hasher e)
  | Except.ok _ => Except.ok ()

/-- Modelled from the spec: the password grammar exactly as the spec
states it, with the repeated-character rule read as rejecting a run of
three or more identical characters anywhere in the string. -/
def hasTripleRun : List Char → Bool
  | a :: b :: c :: rest => (a == b && b == c) || hasTripleRun (b :: c :: rest)
  | _ => false

/-- Modelled from the spec: length 8 to 20, at least one each of
lowercase, uppercase, digit and symbol, no triple run, no blocked
word. -/
def specPasswordGrammar (l : List Char) : Bool :=
  decide (8 ≤ l.length) && decide (l.length ≤ 20) &&
  l.any isAsciiDigit && l.any isAsciiLower && l.any isAsciiUpper &&
  l.any isPwdSymbol && !hasTripleRun l && !hasBlockedWord l

/-! ### Uuid primitive (src/svc_std/src/primitives/id.rs)

The primitive delegates parsing to the uuid crate.  parse_str accepts
four textual forms, dispatched on length: 32 hex digits (simple), the
36-character hyphenated form, the hyphenated form in braces, and the
hyphenated form behind the urn:uuid: prefix.  Parsing is
case-insensitive; the crate's to_string renders the canonical lowercase
hyphenated form, which is what try_from stores. -/

def isHexDigitChar (c : Char) : Bool :=
  isAsciiDigit c || ('a' ≤ c && c ≤ 'f') || ('A' ≤ c && c ≤ 'F')

def isLowerHexChar (c : Char) : Bool :=
  isAsciiDigit c || ('a' ≤ c && c ≤ 'f')

def hexToLower (c : Char) : Char :=
  if 'A' ≤ c && c ≤ 'F' then Char.ofNat (c.toNat + 32) else c

/-- Takes a group of n hex digits off the front of the list. -/
def splitGroup (n : Nat) (l : List Char) : Option (List Char × List Char) :=
  let g := l.take n
  if g.length = n ∧ g.all isHexDigitChar then some (g, l.drop n) else none

/-- Parses the 8-4-4-4-12 hyphenated form, returning the 32 hex digits
lowercased. -/
def parseHyphenated (l : List Char) : Option (List Char) :=
  match splitGroup 8 l with
  | none => none
  | some (a, r1) =>
    match r1 with
    | '-' :: r1 =>
      match splitGroup 4 r1 with
      | none => none
      | some (b, r2) =>
        match r2 with
        | '-' :: r2 =>
          match splitGroup 4 r2 with
          | none => none
          | some (c, r3) =>
            match r3 with
            | '-' :: r3 =>
              match splitGroup 4 r3 with
              | none => none
              | some (d, r4) =>
                match r4 with
                | '-' :: r4 =>
                  match splitGroup 12 r4 with
                  | none => none
                  | some (e, r5) =>
                    if r5.isEmpty then
                      some ((a ++ b ++ c ++ d ++ e).map hexToLower)
                    else none
                | _ => none
            | _ => none
        | _ => none
    | _ => none

def parseSimple (l : List Char) : Option (List Char) :=
  if l.all isHexDigitChar then some (l.map hexToLower) else none

def parseBraced (l : List Char) : Option (List Char) :=
  match l with
  | '\x7b' :: rest =>
    if rest.getLast? = some '\x7d' then parseHyphenated rest.dropLast
    else none
  | _ => none

def parseUrn (l : List Char) : Option (List Char) :=
  if leadMatch ("urn:uuid:".data) l then parseHyphenated (l.drop 9) else none

/-- parse_str of the uuid crate, dispatching on the input length. -/
def uuidParse (l : List Char) : Option (List Char) :=
  if l.length = 32 then parseSimple l
  else if l.length = 36 then parseHyphenated l
  else if l.length = 38 then parseBraced l
  else if l.length = 45 then parseUrn l
  else none

/-- Canonical lowercase hyphenated rendering of 32 hex digits. -/
def canonicalRender (digs : List Char) : List Char :=
  digs.take 8 ++ '-' :: (digs.drop 8).take 4 ++ '-' :: (digs.drop 12).take 4 ++
    '-' :: (digs.drop 16).take 4 ++ '-' :: digs.drop 20

/-- A validatable uuid field; stores the canonical string. -/
structure Uuid where
  s : String
  deriving DecidableEq, Repr

def Uuid.validate (u : Uuid) : Except Error Unit :=
  match uuidParse u.s.data with
  | none => Except.error (Error.Validation ValidationError.Id)
  | some _ => Except.ok ()

def Uuid.try_from (value : String) : Except Error Uuid :=
  match uuidParse value.data with
  | none => Except.error (Error.Validation ValidationError.Id)
  | some digs => Except.ok ⟨String.mk (canonicalRender digs)⟩

/-- Display renders the stored canonical string. -/
def Uuid.display (u : Uuid) : String := u.s

def hexDigitChar (n : Nat) : Char :=
  if n < 10 then Char.ofNat ('0'.toNat + n) else Char.ofNat ('a'.toNat + (n - 10))

/-- The 32 hex digits of a 128-bit number. -/
def natHexDigits (r : Nat) : List Char :=
  (List.range 32).map fun i => hexDigitChar (r / 16 ^ (31 - i) % 16)

/-- new_v4 sets the version nibble (digit 12) to 4 and the variant
digit (digit 16) to the 10xx bit pattern, keeping the low bits. -/
def forceV4 (digs : List Char) : List Char :=
  (digs.set 12 '4').set 16 (hexDigitChar (8 + (digs.getD 16 '0').toNat % 4))

/-- Uuid::new / Uuid::default, with the 128 random bits supplied as a
parameter. -/
def Uuid.new (r : Nat) : Uuid :=
  ⟨String.mk (canonicalRender (forceV4 (natHexDigits r)))⟩

/-! ### DateTime (src/svc_std/src/primitives/datetime.rs)

SystemTime instants are opaque values compared only for equality; they
are modelled as an abstract tick count. -/

structure DateTime where
  t : Nat
  deriving DecidableEq, Repr

/-! ### Domain error type (src/domain/src/user.rs) -/

def password_hasher.Error.displayStr : password_hasher.Error → String
  | password_hasher.Error.HashingError msg => "hashing failed: " ++ msg
  | password_hasher.Error.InvalidPassword => "invalid password"

inductive DomainError
  | Validation (v : ValidationError)
  | Authentication
  | Other (s : String)
  deriving DecidableEq, Repr

/-- From impl mapping svc_std errors into domain errors. -/
def DomainError.from_std : Error → DomainError
  | Error.InvalidPassword => DomainError.Authentication
  | Error.Validation e => DomainError.Validation e
  | Error.PasswordHashingError e =>
    DomainError.Other ("password hashing error: " ++ e.displayStr)
  | Error.RegexError e => DomainError.Other ("regex error: " ++ e)

/-! ### User entity and staged builder
(src/domain/src/user.rs and src/svc_std/src/primitives/user.rs)

The Rust builder tracks each field's stage in its type: the field type
is the marker NoX or the wrapper HasX(value).  The type-level state is
embedded at the data level, one two-constructor stage type per field;
build is then defined on every configuration and returns a value
exactly on the configuration where the Rust impl block exposes it. -/

inductive IdStage
  | NoId
  | HasId (v : Uuid)
  deriving DecidableEq, Repr

inductive EmailStage
  | NoEmail
  | HasEmail (v : Email)
  deriving DecidableEq, Repr

inductive PasswordStage
  | NoPassword
  | HasPassword (v : Password)
  deriving DecidableEq, Repr

inductive CreatedStage
  | NoCreated
  | HasCreated (v : DateTime)
  deriving DecidableEq, Repr

inductive ModifiedStage
  | NoModified
  | HasModified (v : DateTime)
  deriving DecidableEq, Repr

structure User where
  id : Uuid
  email : Email
  password : Password
  created : DateTime
  modified : DateTime
  deriving DecidableEq, Repr

structure UserBuilder where
  id : IdStage
  email : EmailStage
  password : PasswordStage
  created : CreatedStage
  modified : ModifiedStage
  deriving DecidableEq, Repr

/-- User::builder: the id stage is pre-set to a freshly generated
default uuid, and created and modified are pre-set to one captured now.
The randomness of the v4 uuid and the clock reading are parameters. -/
def User.builder (r : Nat) (now : DateTime) : UserBuilder :=
  { id := IdStage.HasId (Uuid.new r)
    email := EmailStage.NoEmail
    password := PasswordStage.NoPassword
    created := CreatedStage.HasCreated now
    modified := ModifiedStage.HasModified now }

/-- UserBuilder::id: sets the id with the provided uuid. -/
def UserBuilder.setId (b : UserBuilder) (v : Uuid) : UserBuilder :=
  { b with id := IdStage.HasId v }

/-- UserBuilder::email: validates and sets the email. -/
def UserBuilder.setEmail (b : UserBuilder) (v : String) : Except Error UserBuilder :=
  match Email.new v with
  | Except.error e => Except.error e
  | Except.ok e => Except.ok { b with email := EmailStage.HasEmail e }

/-- UserBuilder::password: validates, hashes and sets the password. -/
def UserBuilder.setPassword (H : PasswordHasher) (b : UserBuilder) (v : String) :
    Except Error UserBuilder :=
  match Password.new H v with
  | Except.error e => Except.error e
  | Except.ok p => Except.ok { b with password := PasswordStage.HasPassword p }

/-- UserBuilder::created: sets the creation time. -/
def UserBuilder.setCreated (b : UserBuilder) (v : DateTime) : UserBuilder :=
  { b with created := CreatedStage.HasCreated v }

/-- UserBuilder::modified: sets the modification time. -/
def UserBuilder.setModified (b : UserBuilder) (v : DateTime) : UserBuilder :=
  { b with modified := ModifiedStage.HasModified v }

/-- Whether all five stages are set. -/
def UserBuilder.allSet (b : UserBuilder) : Bool :=
  (match b.id with | IdStage.HasId _ => true | IdStage.NoId => false) &&
  (match b.email with | EmailStage.HasEmail _ => true | EmailStage.NoEmail => false) &&
  (match b.password with | PasswordStage.HasPassword _ => true | PasswordStage.NoPassword => false) &&
  (match b.created with | CreatedStage.HasCreated _ => true | CreatedStage.NoCreated => false) &&
  (match b.modified with | ModifiedStage.HasModified _ => true | ModifiedStage.NoModified => false)

/-- UserBuilder::build: in Rust it is only exposed on the fully set
configuration, where it moves the five values into the User; here it is
defined on all configurations and returns a value exactly on the fully
set one. -/
def UserBuilder.build : UserBuilder → Option User
  | { id := IdStage.HasId i, email := EmailStage.HasEmail e,
      password := PasswordStage.HasPassword p,
      created := CreatedStage.HasCreated c,
      modified := ModifiedStage.HasModified m } =>
    some { id := i, email := e, password := p, created := c, modified := m }
  | _ => none

/-- User::confirm_password (svc_std): delegates to Password::confirm. -/
def User.confirm_password (H : PasswordHasher) (u : User) (candidate : String) :
    Except Error Unit :=
  u.password.confirm H candidate

/-- User::confirm_password (domain): delegates to Password::confirm and
maps the error through the From impl. -/
def User.confirm_password_domain (H : PasswordHasher) (u : User) (candidate : String) :
    Except DomainError Unit :=
  match u.password.confirm H candidate with
  | Except.error e => Except.error (DomainError.from_std e)
  | Except.ok _ => Except.ok ()

/-! ### Stage-setting operations in arbitrary order -/

/-- One stage-setting operation of the builder, used to quantify over
the order in which the five stages are supplied. -/
inductive BOp
  | opId (v : Uuid)
  | opEmail (s : String)
  | opPwd (s : String)
  | opCreated (d : DateTime)
  | opModified (d : DateTime)
  deriving DecidableEq, Repr

def applyOp (H : PasswordHasher) (b : UserBuilder) : BOp → Except Error UserBuilder
  | BOp.opId v => Except.ok (b.setId v)
  | BOp.opEmail s => b.setEmail s
  | BOp.opPwd s => UserBuilder.setPassword H b s
  | BOp.opCreated d => Except.ok (b.setCreated d)
  | BOp.opModified d => Except.ok (b.setModified d)

def runOps (H : PasswordHasher) : UserBuilder → List BOp → Except Error UserBuilder
  | b, [] => Except.ok b
  | b, op :: ops =>
    match applyOp H b op with
    | Except.error e => Except.error e
    | Except.ok b2 => runOps H b2 ops

/-- Total companion of applyOp: keeps the builder unchanged when the
setter fails, and coincides with applyOp whenever the setter
succeeds. -/
def applyPure (H : PasswordHasher) (b : UserBuilder) : BOp → UserBuilder
  | BOp.opId v => b.setId v
  | BOp.opEmail s =>
    match Email.new s with
    | Except.ok e => { b with email := EmailStage.HasEmail e }
    | Except.error _ => b
  | BOp.opPwd s =>
    match Password.new H s with
    | Except.ok p => { b with password := PasswordStage.HasPassword p }
    | Except.error _ => b
  | BOp.opCreated d => b.setCreated d
  | BOp.opModified d => b.setModified d

/-- The setter behind an operation succeeds. -/
def opSucceeds (H : PasswordHasher) : BOp → Prop
  | BOp.opEmail s => ∃ e, Email.new s = Except.ok e
  | BOp.opPwd s => ∃ p, Password.new H s = Except.ok p
  | _ => True

/-! ### Concrete hashing capabilities used to instantiate theorems -/

/-- A deterministic test double for the hashing capability. -/
def testHasher : PasswordHasher :=
  { hash := fun s => Except.ok ("h:" ++ s)
    confirm_password := fun p h =>
      if h == "h:" ++ p then Except.ok ()
      else Except.error password_hasher.Error.InvalidPassword }

/-- A capability whose hash always fails, used to observe that hash is
not consulted on invalid plaintexts. -/
def poisonHasher : PasswordHasher :=
  { hash := fun _ => Except.error (password_hasher.Error.HashingError "hash was invoked")
    confirm_password := fun _ _ =>
      Except.error (password_hasher.Error.HashingError "verify was invoked") }

/-! ### Helper lemmas -/

/-- The From impl for hasher errors never produces a Validation error. -/
theorem from_password_hasher_ne_validation (e : password_hasher.Error)
    (v : ValidationError) :
    Error.from_password_hasher e ≠ Error.Validation v := by
  cases e <;> simp [Error.from_password_hasher]

/-- The password regex acceptance condition, spelled out as a
conjunction of its pieces. -/
theorem passwordRegexAccepts_iff (l : List Char) :
    passwordRegexAccepts l = true ↔
      (l.any isAsciiDigit = true ∧ l.any isAsciiLower = true ∧
       l.any isAsciiUpper = true ∧ l.any isPwdSymbol = true ∧
       startRunOk l = true ∧ hasBlockedWord l = false ∧
       8 ≤ l.length ∧ l.length ≤ 20 ∧
       l.all (fun c => !(c == '\n')) = true) := by
  simp [passwordRegexAccepts, Bool.and_eq_true, Bool.not_eq_true', and_assoc]

/-- Password::new on a plaintext rejected by the grammar returns the
Validation error, for every hashing capability. -/
theorem password_new_invalid (H : PasswordHasher) (s : String)
    (h : passwordRegexAccepts s.data = false) :
    Password.new H s = Except.error (Error.Validation ValidationError.Password) := by
  simp [Password.new, Password.validate_value, h]

/-- Password::new on an accepted plaintext is exactly the mapped result
of the capability's hash. -/
theorem password_new_valid (H : PasswordHasher) (s : String)
    (h : passwordRegexAccepts s.data = true) :
    Password.new H s =
      match H.hash s with
      | Except.error e => Except.error (Error.from_password_hasher e)
      | Except.ok hs => Except.ok ⟨hs⟩ := by
  simp [Password.new, Password.validate_value, h]

/-! ### Claim C1 -/

/-- C1 counterexample: the plaintext aaab5Xz* contains the three-long
run aaa, so the claimed grammar rejects it, yet validate_value accepts
it: the regex's repetition lookahead only inspects the first four
characters. -/
theorem c1_counterexample :
    specPasswordGrammar "aaab5Xz*".data = false ∧
    Password.validate_value "aaab5Xz*" = Except.ok () ∧
    Password.new testHasher "aaab5Xz*" = Except.ok ⟨"h:aaab5Xz*"⟩ := by
  refine ⟨by decide, by decide, by decide⟩

/-- C1 as amended: Password::new (Credential::new) returns
Validation(Password) exactly when the plaintext fails the regex's
actual grammar: length within 8 to 20 characters, no newline, at least
one each of digit, lowercase, uppercase and symbol from the fixed set,
a first character that is a word character, first four characters not
all identical, and no blocked word; and on a plaintext satisfying all
of these, new succeeds whenever the capability's hash succeeds. -/
theorem c1_holds (H : PasswordHasher) (s : String) :
    (Password.new H s = Except.error (Error.Validation ValidationError.Password) ↔
      ¬ (s.data.any isAsciiDigit = true ∧ s.data.any isAsciiLower = true ∧
         s.data.any isAsciiUpper = true ∧ s.data.any isPwdSymbol = true ∧
         startRunOk s.data = true ∧ hasBlockedWord s.data = false ∧
         8 ≤ s.data.length ∧ s.data.length ≤ 20 ∧
         s.data.all (fun c => !(c == '\n')) = true)) ∧
    (∀ hs, passwordRegexAccepts s.data = true → H.hash s = Except.ok hs →
      Password.new H s = Except.ok ⟨hs⟩) := by
  constructor
  · rw [← passwordRegexAccepts_iff]
    by_cases hacc : passwordRegexAccepts s.data = true
    · rw [password_new_valid H s hacc]
      have hrh : ¬ passwordRegexAccepts s.data = true ↔ False := by simp [hacc]
      rw [hrh, iff_false]
      cases hh : H.hash s with
      | ok hs => simp
      | error e =>
        simp only [Except.error.injEq]
        intro hc
        exact from_password_hasher_ne_validation e ValidationError.Password hc
    · rw [Bool.not_eq_true] at hacc
      rw [password_new_invalid H s hacc]
      simp [hacc]
  · intro hs hacc hh
    rw [password_new_valid H s hacc, hh]

/-- C1 witness: the valid example password from the tests succeeds with
the test capability. -/
theorem c1_witness :
    Password.new testHasher "mmholAhsbC123*" = Except.ok ⟨"h:mmholAhsbC123*"⟩ :=
  (c1_holds testHasher "mmholAhsbC123*").2 "h:mmholAhsbC123*" (by decide) rfl

/-! ### Claim C2 -/

/-- C2: every string on which the email regex matches is accepted by
Email::new with the raw string stored unchanged and rendered verbatim
by Display; every other string is rejected with Validation(Email). -/
theorem c2_holds (s : String) :
    (emailAccepts s.data = true →
      Email.new s = Except.ok ⟨s⟩ ∧ Email.display ⟨s⟩ = s) ∧
    (emailAccepts s.data = false →
      Email.new s = Except.error (Error.Validation ValidationError.Email)) := by
  constructor <;> intro h <;>
    simp [Email.new, Email.validate, Email.display, h]

/-- C2 witness: the documented example address round-trips, and the
documented rejection examples fail with Validation(Email). -/
theorem c2_witness :
    (Email.new "john.doe@example.com" = Except.ok ⟨"john.doe@example.com"⟩ ∧
      Email.display ⟨"john.doe@example.com"⟩ = "john.doe@example.com") ∧
    Email.new "a@.com" = Except.error (Error.Validation ValidationError.Email) :=
  ⟨(c2_holds "john.doe@example.com").1 (by decide),
   (c2_holds "a@.com").2 (by decide)⟩

/-! ### Claim C3 -/

/-- C3: when the hashing capability reports a mismatch on a candidate
plaintext, Password::confirm fails with InvalidPassword and the domain
entity's confirm_password fails with Authentication; and no outcome of
confirm is ever a Validation error, whatever the capability returns and
whether or not the candidate satisfies the strength grammar. -/
theorem c3_holds (H : PasswordHasher) (u : User) (candidate : String) :
    (H.confirm_password candidate u.password.hashStr =
        Except.error password_hasher.Error.InvalidPassword →
      u.password.confirm H candidate = Except.error Error.InvalidPassword ∧
      u.confirm_password_domain H candidate = Except.error DomainError.Authentication) ∧
    (∀ v : ValidationError,
      u.password.confirm H candidate ≠ Except.error (Error.Validation v)) := by
  constructor
  · intro h
    constructor
    · simp [Password.confirm, h, Error.from_password_hasher]
    · simp [User.confirm_password_domain, Password.confirm, h,
        Error.from_password_hasher, DomainError.from_std]
  · intro v
    cases hh : H.confirm_password candidate u.password.hashStr with
    | ok x => simp [Password.confirm, hh]
    | error e =>
      simp only [Password.confirm, hh, ne_eq, Except.error.injEq]
      exact from_password_hasher_ne_validation e v

/-- C3 witness: a stored credential with the test capability rejects a
non-matching, grammar-violating candidate with Authentication. -/
theorem c3_witness :
    User.confirm_password_domain testHasher
      { id := ⟨"i"⟩, email := ⟨"john.doe@example.com"⟩,
        password := ⟨"h:mmholAhsbC123*"⟩,
        created := ⟨0⟩, modified := ⟨0⟩ } "blabla" =
      Except.error DomainError.Authentication :=
  ((c3_holds testHasher
      { id := ⟨"i"⟩, email := ⟨"john.doe@example.com"⟩,
        password := ⟨"h:mmholAhsbC123*"⟩,
        created := ⟨0⟩, modified := ⟨0⟩ } "blabla").1 (by decide)).2

/-! ### Claim C4 -/

/-- C4: Password::new validates strictly before hashing.  On a
plaintext that fails the grammar the result is the Validation error for
every hashing capability, including one whose hash always fails, so the
hash operation is never consulted; on a plaintext that passes, the
result is exactly the mapped outcome of the hash call. -/
theorem c4_holds (H : PasswordHasher) (s : String) :
    (passwordRegexAccepts s.data = false →
      Password.new H s = Except.error (Error.Validation ValidationError.Password)) ∧
    (passwordRegexAccepts s.data = true →
      Password.new H s =
        match H.hash s with
        | Except.error e => Except.error (Error.from_password_hasher e)
        | Except.ok hs => Except.ok ⟨hs⟩) :=
  ⟨password_new_invalid H s, password_new_valid H s⟩

/-- C4 witness: with the always-failing capability, an invalid
plaintext still yields the Validation error rather than the poison
hashing error, and a valid plaintext yields the poison hashing error,
showing hash is consulted exactly after validation passes. -/
theorem c4_witness :
    Password.new poisonHasher "blabla" =
      Except.error (Error.Validation ValidationError.Password) ∧
    Password.new poisonHasher "mmholAhsbC123*" =
      Except.error (Error.PasswordHashingError
        (password_hasher.Error.HashingError "hash was invoked")) :=
  ⟨(c4_holds poisonHasher "blabla").1 (by decide),
   (c4_holds poisonHasher "mmholAhsbC123*").2 (by decide)⟩

/-! ### Claim C6 -/

/-- C6: on the configuration where all five stages are set, build is
total and moves the five stage values unchanged into the User; and a
builder configuration admits a built User precisely when all five
stages are set, which mirrors the Rust impl block that exposes build
only at that type. -/
theorem c6_holds (i : Uuid) (e : Email) (p : Password) (c m : DateTime)
    (b : UserBuilder) :
    UserBuilder.build ⟨IdStage.HasId i, EmailStage.HasEmail e,
        PasswordStage.HasPassword p, CreatedStage.HasCreated c,
        ModifiedStage.HasModified m⟩ =
      some { id := i, email := e, password := p, created := c, modified := m } ∧
    ((∃ u, b.build = some u) ↔ b.allSet = true) := by
  refine ⟨rfl, ?_⟩
  obtain ⟨bi, be, bp, bc, bm⟩ := b
  cases bi <;> cases be <;> cases bp <;> cases bc <;> cases bm <;>
    simp [UserBuilder.build, UserBuilder.allSet]

/-- C6 witness: build on a concrete fully set builder returns the
Principal with exactly those five values. -/
theorem c6_witness :
    UserBuilder.build ⟨IdStage.HasId ⟨"u"⟩, EmailStage.HasEmail ⟨"e@x.co"⟩,
      PasswordStage.HasPassword ⟨"h"⟩, CreatedStage.HasCreated ⟨0⟩,
      ModifiedStage.HasModified ⟨1⟩⟩ =
      some ⟨⟨"u"⟩, ⟨"e@x.co"⟩, ⟨"h"⟩, ⟨0⟩, ⟨1⟩⟩ :=
  (c6_holds ⟨"u"⟩ ⟨"e@x.co"⟩ ⟨"h"⟩ ⟨0⟩ ⟨1⟩
    ⟨IdStage.NoId, EmailStage.NoEmail, PasswordStage.NoPassword,
      CreatedStage.NoCreated, ModifiedStage.NoModified⟩).1

/-! ### Claim C9 -/

/-- C9: immediately after User::builder, the id stage already holds the
freshly generated default uuid and the created and modified stages hold
one and the same captured now; setting only email and password then
makes build available, and the built user keeps id, has created equal
to the captured now, and created equal to modified. -/
theorem c9_holds (r : Nat) (now : DateTime) (es ps : String) (ee : Email)
    (pp : Password) (H : PasswordHasher)
    (he : Email.new es = Except.ok ee) (hp : Password.new H ps = Except.ok pp) :
    (User.builder r now).id = IdStage.HasId (Uuid.new r) ∧
    (User.builder r now).created = CreatedStage.HasCreated now ∧
    (User.builder r now).modified = ModifiedStage.HasModified now ∧
    ∃ b1 b2 usr,
      (User.builder r now).setEmail es = Except.ok b1 ∧
      UserBuilder.setPassword H b1 ps = Except.ok b2 ∧
      b2.build = some usr ∧
      usr.id = Uuid.new r ∧ usr.created = now ∧ usr.modified = now ∧
      usr.created = usr.modified := by
  refine ⟨rfl, rfl, rfl,
    ⟨IdStage.HasId (Uuid.new r), EmailStage.HasEmail ee,
      PasswordStage.NoPassword, CreatedStage.HasCreated now,
      ModifiedStage.HasModified now⟩,
    ⟨IdStage.HasId (Uuid.new r), EmailStage.HasEmail ee,
      PasswordStage.HasPassword pp, CreatedStage.HasCreated now,
      ModifiedStage.HasModified now⟩,
    { id := Uuid.new r, email := ee, password := pp, created := now,
      modified := now },
    ?_, ?_, rfl, rfl, rfl, rfl, rfl⟩
  · simp [UserBuilder.setEmail, he, User.builder]
  · simp [UserBuilder.setPassword, hp, User.builder]

/-- C9 witness: concrete builder run setting only email and password. -/
theorem c9_witness :
    (User.builder 0 ⟨5⟩).id = IdStage.HasId (Uuid.new 0) ∧
    (User.builder 0 ⟨5⟩).created = CreatedStage.HasCreated ⟨5⟩ ∧
    (User.builder 0 ⟨5⟩).modified = ModifiedStage.HasModified ⟨5⟩ ∧
    ∃ b1 b2 usr,
      (User.builder 0 ⟨5⟩).setEmail "john.doe@example.com" = Except.ok b1 ∧
      UserBuilder.setPassword testHasher b1 "mmholAhsbC123*" = Except.ok b2 ∧
      b2.build = some usr ∧
      usr.id = Uuid.new 0 ∧ usr.created = ⟨5⟩ ∧ usr.modified = ⟨5⟩ ∧
      usr.created = usr.modified :=
  c9_holds 0 ⟨5⟩ "john.doe@example.com" "mmholAhsbC123*"
    ⟨"john.doe@example.com"⟩ ⟨"h:mmholAhsbC123*"⟩ testHasher
    (by decide) (by decide)

/-! ### Claim C8 helper lemmas -/

theorem all_of_subset {p : Char → Bool} {l1 l2 : List Char} (hs : l1 ⊆ l2)
    (h : l2.all p = true) : l1.all p = true := by
  rw [List.all_eq_true] at h ⊢
  exact fun x hx => h x (hs hx)

theorem lower_hex_is_hex (c : Char) (h : isLowerHexChar c = true) :
    isHexDigitChar c = true := by
  simp only [isLowerHexChar, Bool.or_eq_true] at h
  simp only [isHexDigitChar, Bool.or_eq_true]
  tauto

theorem all_lower_hex_all_hex (l : List Char) (h : l.all isLowerHexChar = true) :
    l.all isHexDigitChar = true := by
  rw [List.all_eq_true] at h ⊢
  exact fun x hx => lower_hex_is_hex x (h x hx)

theorem hexToLower_of_lower (c : Char) (h : isLowerHexChar c = true) :
    hexToLower c = c := by
  have hnot : ¬ ('A' ≤ c ∧ c ≤ 'F') := by
    rintro ⟨hA, hF⟩
    simp only [isLowerHexChar, isAsciiDigit, Bool.or_eq_true, Bool.and_eq_true,
      decide_eq_true_eq] at h
    rcases h with ⟨h0, h9⟩ | ⟨ha, hf⟩
    · exact absurd (le_trans hA h9) (by decide)
    · exact absurd (le_trans ha hF) (by decide)
  have hcond : (decide ('A' ≤ c) && decide (c ≤ 'F')) = false := by
    cases hA : decide ('A' ≤ c) with
    | false => rfl
    | true =>
      cases hF : decide (c ≤ 'F') with
      | false => rfl
      | true =>
        rw [decide_eq_true_eq] at hA hF
        exact absurd ⟨hA, hF⟩ hnot
  simp [hexToLower, hcond]

theorem map_hexToLower_of_lower (l : List Char) (h : l.all isLowerHexChar = true) :
    l.map hexToLower = l := by
  induction l with
  | nil => rfl
  | cons a t ih =>
    rw [List.all_cons, Bool.and_eq_true] at h
    rw [List.map_cons, hexToLower_of_lower a h.1, ih h.2]

theorem splitGroup_append (n : Nat) (g rest : List Char) (hlen : g.length = n)
    (hhex : g.all isHexDigitChar = true) :
    splitGroup n (g ++ rest) = some (g, rest) := by
  have ht : (g ++ rest).take n = g := List.take_left' hlen
  have hd : (g ++ rest).drop n = rest := List.drop_left' hlen
  simp [splitGroup, ht, hd, hlen, hhex]

theorem splitGroup_exact (n : Nat) (l : List Char) (hlen : l.length = n)
    (hhex : l.all isHexDigitChar = true) : splitGroup n l = some (l, []) := by
  subst hlen
  simp [splitGroup, hhex]

/-- The canonical rendering of 32 hex digits parses back to exactly
those digits, lowercased. -/
theorem parseHyphenated_canonical (digs : List Char) (h32 : digs.length = 32)
    (hhex : digs.all isHexDigitChar = true) :
    parseHyphenated (canonicalRender digs) = some (digs.map hexToLower) := by
  have ha : (digs.take 8).length = 8 := by rw [List.length_take]; omega
  have hb : ((digs.drop 8).take 4).length = 4 := by
    rw [List.length_take, List.length_drop]; omega
  have hc : ((digs.drop 12).take 4).length = 4 := by
    rw [List.length_take, List.length_drop]; omega
  have hd : ((digs.drop 16).take 4).length = 4 := by
    rw [List.length_take, List.length_drop]; omega
  have he : (digs.drop 20).length = 12 := by rw [List.length_drop]; omega
  have hahex := all_of_subset (List.take_subset 8 digs) hhex
  have hbhex := all_of_subset
    ((List.take_subset 4 (digs.drop 8)).trans (List.drop_subset 8 digs)) hhex
  have hchex := all_of_subset
    ((List.take_subset 4 (digs.drop 12)).trans (List.drop_subset 12 digs)) hhex
  have hdhex := all_of_subset
    ((List.take_subset 4 (digs.drop 16)).trans (List.drop_subset 16 digs)) hhex
  have hehex := all_of_subset (List.drop_subset 20 digs) hhex
  have e2 : (digs.drop 16).take 4 ++ digs.drop 20 = digs.drop 16 := by
    have h0 := List.take_append_drop 4 (digs.drop 16)
    rw [List.drop_drop] at h0
    norm_num at h0
    exact h0
  have e3 : (digs.drop 12).take 4 ++ digs.drop 16 = digs.drop 12 := by
    have h0 := List.take_append_drop 4 (digs.drop 12)
    rw [List.drop_drop] at h0
    norm_num at h0
    exact h0
  have e4 : (digs.drop 8).take 4 ++ digs.drop 12 = digs.drop 8 := by
    have h0 := List.take_append_drop 4 (digs.drop 8)
    rw [List.drop_drop] at h0
    norm_num at h0
    exact h0
  have hsplit : digs.take 8 ++ ((digs.drop 8).take 4 ++ ((digs.drop 12).take 4 ++
      ((digs.drop 16).take 4 ++ digs.drop 20))) = digs := by
    rw [e2, e3, e4, List.take_append_drop]
  have hcanon : canonicalRender digs =
      digs.take 8 ++ '-' :: ((digs.drop 8).take 4 ++ '-' :: ((digs.drop 12).take 4 ++
        '-' :: ((digs.drop 16).take 4 ++ '-' :: digs.drop 20))) := by
    simp only [canonicalRender, List.cons_append, List.append_assoc]
  rw [hcanon]
  unfold parseHyphenated
  rw [splitGroup_append 8 (digs.take 8) _ ha hahex]
  simp only []
  rw [splitGroup_append 4 ((digs.drop 8).take 4) _ hb hbhex]
  simp only []
  rw [splitGroup_append 4 ((digs.drop 12).take 4) _ hc hchex]
  simp only []
  rw [splitGroup_append 4 ((digs.drop 16).take 4) _ hd hdhex]
  simp only []
  rw [splitGroup_exact 12 (digs.drop 20) he hehex]
  simp only [List.isEmpty_nil, if_true]
  have hflat : digs.take 8 ++ (digs.drop 8).take 4 ++ (digs.drop 12).take 4 ++
      (digs.drop 16).take 4 ++ digs.drop 20 = digs := by
    simp only [List.append_assoc]
    exact hsplit
  rw [hflat]

theorem length_canonicalRender (digs : List Char) (h32 : digs.length = 32) :
    (canonicalRender digs).length = 36 := by
  simp only [canonicalRender, List.length_append, List.length_cons,
    List.length_take, List.length_drop, h32]
  omega

theorem natHexDigits_length (r : Nat) : (natHexDigits r).length = 32 := by
  simp [natHexDigits]

theorem hexDigitChar_lower_of_lt (n : Nat) (h : n < 16) :
    isLowerHexChar (hexDigitChar n) = true :=
  (by decide : ∀ m, m < 16 → isLowerHexChar (hexDigitChar m) = true) n h

theorem natHexDigits_hex (r : Nat) : (natHexDigits r).all isLowerHexChar = true := by
  rw [List.all_eq_true]
  intro x hx
  simp only [natHexDigits, List.mem_map, List.mem_range] at hx
  obtain ⟨i, _, rfl⟩ := hx
  exact hexDigitChar_lower_of_lt _ (Nat.mod_lt _ (by norm_num))

theorem forceV4_length (digs : List Char) : (forceV4 digs).length = digs.length := by
  simp [forceV4]

theorem forceV4_hex (digs : List Char) (h : digs.all isLowerHexChar = true) :
    (forceV4 digs).all isLowerHexChar = true := by
  rw [List.all_eq_true] at h ⊢
  intro x hx
  rcases List.mem_or_eq_of_mem_set hx with hx2 | hx2
  · rcases List.mem_or_eq_of_mem_set hx2 with hx3 | hx3
    · exact h x hx3
    · rw [hx3]; decide
  · rw [hx2]
    exact hexDigitChar_lower_of_lt _ (by omega)

/-! ### Claim C8 -/

/-- C8: the generated identifier always validates; parse of a string
the uuid grammar rejects fails with Validation(Id); and the canonical
lowercase hyphenated rendering of any 32 hex digits parses successfully
and is re-rendered by Display exactly as supplied. -/
theorem c8_holds (r : Nat) (digs : List Char) (s : String)
    (h32 : digs.length = 32) (hlow : digs.all isLowerHexChar = true) :
    (Uuid.new r).validate = Except.ok () ∧
    Uuid.try_from "123" = Except.error (Error.Validation ValidationError.Id) ∧
    (uuidParse s.data = none →
      Uuid.try_from s = Except.error (Error.Validation ValidationError.Id)) ∧
    Uuid.try_from (String.mk (canonicalRender digs)) =
      Except.ok ⟨String.mk (canonicalRender digs)⟩ ∧
    Uuid.display ⟨String.mk (canonicalRender digs)⟩ =
      String.mk (canonicalRender digs) := by
  have hparse : ∀ ds : List Char, ds.length = 32 → ds.all isLowerHexChar = true →
      uuidParse (canonicalRender ds) = some ds := by
    intro ds hl hx
    have hlen36 := length_canonicalRender ds hl
    rw [uuidParse, if_neg (by omega), if_pos hlen36,
      parseHyphenated_canonical ds hl (all_lower_hex_all_hex ds hx),
      map_hexToLower_of_lower ds hx]
  refine ⟨?_, by decide, ?_, ?_, rfl⟩
  · have hv := hparse (forceV4 (natHexDigits r))
      (by rw [forceV4_length, natHexDigits_length])
      (forceV4_hex _ (natHexDigits_hex r))
    simp [Uuid.new, Uuid.validate, hv]
  · intro h
    simp [Uuid.try_from, h]
  · simp [Uuid.try_from, hparse digs h32 hlow]

/-- C8 witness: the documented concrete uuid round-trips through parse
and Display, and a freshly generated identifier validates. -/
theorem c8_witness :
    (Uuid.new 7).validate = Except.ok () ∧
    Uuid.try_from (String.mk (canonicalRender ("ebf8a4f3b481474cae29c71e975e1055".data))) =
      Except.ok ⟨String.mk (canonicalRender ("ebf8a4f3b481474cae29c71e975e1055".data))⟩ :=
  ⟨(c8_holds 7 ("ebf8a4f3b481474cae29c71e975e1055".data) "123"
      (by decide) (by decide)).1,
   (c8_holds 7 ("ebf8a4f3b481474cae29c71e975e1055".data) "123"
      (by decide) (by decide)).2.2.2.1⟩

/-! ### Claim C10 helper lemmas -/

theorem localTail_all_mid (l : List Char) (h : localTail l = true) :
    l.all isLocalMid = true := by
  induction l with
  | nil => rfl
  | cons a t ih =>
    cases t with
    | nil =>
      rw [localTail] at h
      simp [isLocalMid, h]
    | cons b t2 =>
      rw [localTail, Bool.and_eq_true] at h
      simp [List.all_cons, h.1, ih h.2]

theorem localOk_all_mid (l : List Char) (h : localOk l = true) :
    l.all isLocalMid = true := by
  cases l with
  | nil => rfl
  | cons a t =>
    rw [localOk, Bool.and_eq_true] at h
    rw [List.all_cons, Bool.and_eq_true]
    exact ⟨by simp [isLocalMid, h.1], localTail_all_mid t h.2⟩

theorem takeWhile_append_stop (p : Char → Bool) (l1 : List Char) (x : Char)
    (l2 : List Char) (h1 : l1.all p = true) (hx : p x = false) :
    (l1 ++ x :: l2).takeWhile p = l1 ∧ (l1 ++ x :: l2).dropWhile p = x :: l2 := by
  induction l1 with
  | nil => simp [List.takeWhile_cons, List.dropWhile_cons, hx]
  | cons a t ih =>
    rw [List.all_cons, Bool.and_eq_true] at h1
    have hih := ih h1.2
    simp [List.takeWhile_cons, List.dropWhile_cons, h1.1, hih.1, hih.2]

/-- An exact domain match survives arbitrary trailing characters as a
prefix match. -/
theorem domainFullOk_extends (d t : List Char) (h : domainFullOk d = true) :
    domainPrefixOk (d ++ t) = true := by
  rw [domainFullOk, List.any_eq_true] at h
  obtain ⟨j, hj, hcond⟩ := h
  rw [List.mem_range] at hj
  simp only [Bool.and_eq_true, decide_eq_true_eq, beq_iff_eq] at hcond
  obtain ⟨⟨⟨⟨hbody, hdot⟩, hall⟩, hge2⟩, _⟩ := hcond
  rw [domainPrefixOk, List.any_eq_true]
  refine ⟨j, by rw [List.mem_range, List.length_append]; omega, ?_⟩
  simp only [Bool.and_eq_true, beq_iff_eq]
  refine ⟨⟨?_, ?_⟩, ?_⟩
  · rw [List.take_append_of_le_length (by omega)]
    exact hbody
  · rw [List.getD_append _ _ _ _ hj]
    exact hdot
  · rw [List.drop_append_of_le_length (by omega)]
    obtain ⟨a, b, u2, huab⟩ : ∃ a b u2, d.drop (j + 1) = a :: b :: u2 := by
      rcases hd2 : d.drop (j + 1) with _ | ⟨a, _ | ⟨b, u2⟩⟩
      · rw [hd2] at hge2; simp at hge2
      · rw [hd2] at hge2; simp at hge2
      · exact ⟨a, b, u2, rfl⟩
    rw [huab] at hall ⊢
    rw [List.cons_append, List.cons_append]
    simp only [List.all_cons, Bool.and_eq_true] at hall
    simp [tldStart, hall.1, hall.2.1]

/-- A string in the exact email language followed by any trailing
characters is accepted by the start-anchored matcher. -/
theorem emailExactMatch_extends (s t : List Char) (h : emailExactMatch s = true) :
    emailAccepts (s ++ t) = true := by
  rw [emailExactMatch, List.any_eq_true] at h
  obtain ⟨i, _, hcond⟩ := h
  rw [Bool.and_eq_true] at hcond
  obtain ⟨hloc, hrest⟩ := hcond
  obtain ⟨d, hsd, hdom⟩ : ∃ d, s.drop i = '@' :: d ∧ domainFullOk d = true := by
    split at hrest
    · rename_i d heq
      exact ⟨d, heq, hrest⟩
    · simp at hrest
  have hs : s = s.take i ++ '@' :: d := by rw [← hsd, List.take_append_drop]
  have hsall := localOk_all_mid _ hloc
  have hAt : isLocalMid '@' = false := by decide
  obtain ⟨htw, hdw⟩ := takeWhile_append_stop isLocalMid (s.take i) '@' (d ++ t)
    hsall hAt
  conv_lhs => rw [hs]
  rw [List.append_assoc, List.cons_append]
  simp only [emailAccepts]
  rw [htw, hdw, hloc]
  have hdp := domainFullOk_extends d t hdom
  simp [hdp]

/-! ### Claim C10 -/

/-- C10: the email regex is anchored at the start only, so Email::new
accepts every string that begins with a prefix in the exact email
language no matter what characters follow, storing the entire raw
string, which Display then renders including the trailing
characters. -/
theorem c10_holds (s t : String) (h : emailExactMatch s.data = true) :
    Email.new (s ++ t) = Except.ok ⟨s ++ t⟩ ∧ Email.display ⟨s ++ t⟩ = s ++ t := by
  have hacc : emailAccepts (s.data ++ t.data) = true :=
    emailExactMatch_extends s.data t.data h
  exact ⟨by simp [Email.new, Email.validate, String.data_append, hacc], rfl⟩

/-- C10 witness: an address followed by a space, uppercase letters and
a second at sign is accepted whole and rendered whole. -/
theorem c10_witness :
    Email.new ("john.doe@example.com" ++ " SECOND@x") =
      Except.ok ⟨"john.doe@example.com" ++ " SECOND@x"⟩ ∧
    Email.display ⟨"john.doe@example.com" ++ " SECOND@x"⟩ =
      "john.doe@example.com" ++ " SECOND@x" :=
  c10_holds "john.doe@example.com" " SECOND@x" (by decide)

/-! ### Claim C7 helper lemmas -/

theorem applyOp_eq_pure (H : PasswordHasher) (b : UserBuilder) (op : BOp)
    (h : opSucceeds H op) : applyOp H b op = Except.ok (applyPure H b op) := by
  cases op with
  | opId v => rfl
  | opEmail s =>
    obtain ⟨e, he⟩ := h
    simp [applyOp, applyPure, UserBuilder.setEmail, he]
  | opPwd s =>
    obtain ⟨p, hp⟩ := h
    simp [applyOp, applyPure, UserBuilder.setPassword, hp]
  | opCreated d => rfl
  | opModified d => rfl

theorem runOps_eq_foldl (H : PasswordHasher) (ops : List BOp) (b : UserBuilder)
    (h : ∀ op ∈ ops, opSucceeds H op) :
    runOps H b ops = Except.ok (ops.foldl (applyPure H) b) := by
  induction ops generalizing b with
  | nil => rfl
  | cons op ops ih =>
    rw [runOps, applyOp_eq_pure H b op (h op (List.mem_cons_self op ops)),
      List.foldl_cons]
    exact ih (applyPure H b op) fun o ho => h o (List.mem_cons_of_mem op ho)

/-- The five stage-setting operations touch disjoint fields, so they
commute pairwise. -/
theorem applyPure_comm (H : PasswordHasher) (u : Uuid) (es ps : String)
    (c m : DateTime) :
    ∀ x ∈ [BOp.opId u, BOp.opEmail es, BOp.opPwd ps, BOp.opCreated c,
      BOp.opModified m],
    ∀ y ∈ [BOp.opId u, BOp.opEmail es, BOp.opPwd ps, BOp.opCreated c,
      BOp.opModified m],
    ∀ z, applyPure H (applyPure H z x) y = applyPure H (applyPure H z y) x := by
  intro x hx y hy z
  simp only [List.mem_cons, List.not_mem_nil, or_false] at hx hy
  rcases hx with rfl | rfl | rfl | rfl | rfl <;>
    rcases hy with rfl | rfl | rfl | rfl | rfl <;>
    simp only [applyPure, UserBuilder.setId, UserBuilder.setCreated,
      UserBuilder.setModified] <;>
    first
      | rfl
      | (cases Email.new es <;> cases Password.new H ps <;> rfl)

/-! ### Claim C7 -/

/-- C7: supplying the five stages in any order gives the same run
result as the canonical order, and building afterwards yields the one
Principal holding exactly the five supplied values, for any starting
builder. -/
theorem c7_holds (H : PasswordHasher) (b0 : UserBuilder) (u : Uuid)
    (es ps : String) (ee : Email) (pp : Password) (c m : DateTime)
    (ops : List BOp)
    (hperm : ops.Perm [BOp.opId u, BOp.opEmail es, BOp.opPwd ps, BOp.opCreated c,
      BOp.opModified m])
    (he : Email.new es = Except.ok ee) (hp : Password.new H ps = Except.ok pp) :
    runOps H b0 ops = runOps H b0 [BOp.opId u, BOp.opEmail es, BOp.opPwd ps,
      BOp.opCreated c, BOp.opModified m] ∧
    (runOps H b0 ops).map UserBuilder.build =
      Except.ok (some ⟨u, ee, pp, c, m⟩) := by
  have hsucc : ∀ op ∈ [BOp.opId u, BOp.opEmail es, BOp.opPwd ps, BOp.opCreated c,
      BOp.opModified m], opSucceeds H op := by
    intro op hop
    simp only [List.mem_cons, List.not_mem_nil, or_false] at hop
    rcases hop with rfl | rfl | rfl | rfl | rfl
    · trivial
    · exact ⟨ee, he⟩
    · exact ⟨pp, hp⟩
    · trivial
    · trivial
  have hsucc2 : ∀ op ∈ ops, opSucceeds H op := fun op hop =>
    hsucc op (hperm.subset hop)
  have hcomm : ∀ x ∈ ops, ∀ y ∈ ops, ∀ z,
      applyPure H (applyPure H z x) y = applyPure H (applyPure H z y) x :=
    fun x hx y hy z =>
      applyPure_comm H u es ps c m x (hperm.subset hx) y (hperm.subset hy) z
  have h1 := runOps_eq_foldl H ops b0 hsucc2
  have h2 := runOps_eq_foldl H
    [BOp.opId u, BOp.opEmail es, BOp.opPwd ps, BOp.opCreated c, BOp.opModified m]
    b0 hsucc
  have hfold := hperm.foldl_eq' hcomm b0
  have hfinal : [BOp.opId u, BOp.opEmail es, BOp.opPwd ps, BOp.opCreated c,
      BOp.opModified m].foldl (applyPure H) b0 =
      ⟨IdStage.HasId u, EmailStage.HasEmail ee, PasswordStage.HasPassword pp,
        CreatedStage.HasCreated c, ModifiedStage.HasModified m⟩ := by
    simp [List.foldl_cons, applyPure, UserBuilder.setId, UserBuilder.setCreated,
      UserBuilder.setModified, he, hp]
  refine ⟨by rw [h1, h2, hfold], ?_⟩
  rw [h1, hfold, hfinal]
  rfl

/-- C7 witness: the five stages supplied in reverse order produce the
same run result and the same built Principal as the canonical order. -/
theorem c7_witness :
    runOps testHasher (User.builder 0 ⟨0⟩)
      [BOp.opModified ⟨2⟩, BOp.opCreated ⟨1⟩, BOp.opPwd "mmholAhsbC123*",
        BOp.opEmail "john.doe@example.com", BOp.opId ⟨"u1"⟩] =
      runOps testHasher (User.builder 0 ⟨0⟩)
        [BOp.opId ⟨"u1"⟩, BOp.opEmail "john.doe@example.com",
          BOp.opPwd "mmholAhsbC123*", BOp.opCreated ⟨1⟩, BOp.opModified ⟨2⟩] ∧
    (runOps testHasher (User.builder 0 ⟨0⟩)
      [BOp.opModified ⟨2⟩, BOp.opCreated ⟨1⟩, BOp.opPwd "mmholAhsbC123*",
        BOp.opEmail "john.doe@example.com", BOp.opId ⟨"u1"⟩]).map
        UserBuilder.build =
      Except.ok (some ⟨⟨"u1"⟩, ⟨"john.doe@example.com"⟩, ⟨"h:mmholAhsbC123*"⟩,
        ⟨1⟩, ⟨2⟩⟩) :=
  c7_holds testHasher (User.builder 0 ⟨0⟩) ⟨"u1"⟩ "john.doe@example.com"
    "mmholAhsbC123*" ⟨"john.doe@example.com"⟩ ⟨"h:mmholAhsbC123*"⟩ ⟨1⟩ ⟨2⟩
    [BOp.opModified ⟨2⟩, BOp.opCreated ⟨1⟩, BOp.opPwd "mmholAhsbC123*",
      BOp.opEmail "john.doe@example.com", BOp.opId ⟨"u1"⟩]
    (by decide) (by decide) (by decide)

/-! ### Source test-suite vectors

These replay the unit tests of the source files against the embedded
matchers, plus the two inputs on which the regex's repetition rule
departs from a plain no-three-in-a-row reading. -/

theorem email_testsuite_vectors :
    emailAccepts ("john.doe@example.com".data) = true ∧
    emailAccepts ("a".data) = false ∧
    emailAccepts ("a@".data) = false ∧
    emailAccepts ("example.com".data) = false ∧
    emailAccepts ("a@.com".data) = false ∧
    emailAccepts ("a@b.co XYZ@@".data) = true := by
  decide

theorem password_testsuite_vectors :
    passwordRegexAccepts ("mmholAhsbC123*".data) = true ∧
    passwordRegexAccepts ("aQ3*".data) = false ∧
    passwordRegexAccepts ("mmholAhsbC123*artfgrr".data) = false ∧
    passwordRegexAccepts ("aaaaaaaaaaaaaaaaaaa".data) = false ∧
    passwordRegexAccepts ("AAAAAAAAAAAAAAAAAAA".data) = false ∧
    passwordRegexAccepts ("1111111111111111111".data) = false ∧
    passwordRegexAccepts ("*******************".data) = false ∧
    passwordRegexAccepts ("mmholAhsbC123".data) = false ∧
    passwordRegexAccepts ("mmholahsbc123*".data) = false ∧
    passwordRegexAccepts ("MMHOLAHSBC123*".data) = false ∧
    passwordRegexAccepts ("mmholAhsbCaaa*".data) = false := by
  decide

theorem password_repetition_divergence_vectors :
    passwordRegexAccepts ("*abcQ123".data) = false ∧
    specPasswordGrammar ("*abcQ123".data) = true := by
  decide

theorem uuid_testsuite_vectors :
    Uuid.try_from "123" = Except.error (Error.Validation ValidationError.Id) ∧
    Uuid.try_from "ebf8a4f3-b481-474c-ae29-c71e975e1055" =
      Except.ok ⟨"ebf8a4f3-b481-474c-ae29-c71e975e1055"⟩ ∧
    (Uuid.new 12345).validate = Except.ok () := by
  decide
